import Mathlib

/-!
Shallow embedding of the `ai-context` indexing core (repository `fire5125/ai-context`).

The embedding follows `src/ai_context` (the current package; `src/src/ai_context`
is a legacy copy).  Python strings become Lean `String`s, on-disk bytes become
`List Nat`, SQLite tables become association lists, and the external oracles the
code calls into (the CPython parser, the `tiktoken` tokenizer, the single-pattern
`gitwildmatch` matcher of `pathspec`, and best-effort UTF-8 decoding with
replacement) are passed in as function parameters.  Filesystem effects are made
explicit: each walked path carries the facts the code observes about it (whether
it is a regular file, its relative path, its bytes, and whether the two reads the
code performs raise).  Line splitting models `str.splitlines` with `"\n"` as the
line break.
-/

namespace AiContext

/-- One filesystem path as observed by the code: `isFile` is `path.is_file()`,
`rel` is the result of `path.relative_to(Path.cwd())` (`none` when it raises
`ValueError`), `sampleError` is whether reading the first 1024 bytes in
`is_binary` raises, `bytes` are the file's on-disk bytes (so `st_size` is
`bytes.length`), and `readError` is whether `read_text` raises. -/
structure FSEntry where
  path : String
  isFile : Bool
  rel : Option String
  sampleError : Bool
  bytes : List Nat
  readError : Bool
deriving DecidableEq

/-- From `index.py`: `is_binary` reads the first 1024 bytes and reports whether
they contain a null byte; any exception while sampling yields `True`. -/
def is_binary (e : FSEntry) : Bool :=
  if e.sampleError then true
  else (e.bytes.take 1024).contains 0

/-- From `index.py`: `should_index` — regular file, relative path computable,
not matched by the ignore matcher, not binary, and at most 1,000,000 bytes. -/
def should_index (e : FSEntry) (ign : String → Bool) : Bool :=
  if e.isFile = false then false
  else
    match e.rel with
    | none => false
    | some rel =>
      if ign rel then false
      else if is_binary e then false
      else if e.bytes.length > 1000000 then false
      else true

/-- State of the `.ai-context/.ai-ignore` file: whether it exists and its text. -/
structure IgnoreFileState where
  present : Bool
  content : String
deriving DecidableEq

/-- The characters `str.strip()` removes (ASCII whitespace model). -/
def isPySpace (c : Char) : Bool :=
  c = ' ' ∨ c = '\t' ∨ c = '\n' ∨ c = '\r' ∨ c = '\x0b' ∨ c = '\x0c'

/-- `str.split(sep)` for a one-character separator, over the char list; `acc`
holds the current piece reversed. -/
def charSplit (sep : Char) : List Char → List Char → List (List Char)
  | [], acc => [acc.reverse]
  | x :: rest, acc =>
    if x = sep then acc.reverse :: charSplit sep rest []
    else charSplit sep rest (x :: acc)

/-- `str.split(sep)` on strings (one-character separator). -/
def pySplit (sep : Char) (s : String) : List String :=
  (charSplit sep s.toList []).map String.mk

/-- `str.strip()`. -/
def pyStrip (s : String) : String :=
  String.mk (((s.toList.dropWhile isPySpace).reverse.dropWhile isPySpace).reverse)

/-- Whether the char list `s` begins with the char list `p`. -/
def charsStartWith : List Char → List Char → Bool
  | _, [] => true
  | [], _ :: _ => false
  | a :: s, b :: p => if a = b then charsStartWith s p else false

/-- `str.startswith(t)`. -/
def pyStartsWith (s t : String) : Bool :=
  charsStartWith s.toList t.toList

/-- `s[:n]` — the first `n` characters. -/
def pyTake (n : Nat) (s : String) : String :=
  String.mk (s.toList.take n)

/-- `str.rstrip(".")`. -/
def pyRstripDots (s : String) : String :=
  String.mk ((s.toList.reverse.dropWhile (fun c => c = '.')).reverse)

/-- Model of `str.splitlines` with `"\n"` as the only line break: split on
newlines and drop the trailing empty piece produced by a final newline. -/
def splitlines (s : String) : List String :=
  if s = "" then []
  else
    let parts := pySplit '\n' s
    if parts.getLast? = some "" then parts.dropLast else parts

/-- From `index.py` (`load_ai_ignore`): keep each line that is non-blank after
stripping and whose raw text does not start with `#`, stripped. -/
def load_lines (content : String) : List String :=
  (splitlines content).filterMap (fun line =>
    let s := pyStrip line
    if s ≠ "" ∧ pyStartsWith line "#" = false then some s else none)

/-- The header written into a freshly created `.ai-ignore` file. -/
def aiIgnoreHeader : String := "# Add file/folder patterns to ignore (like .gitignore)\n"

/-- From `index.py`: `load_ai_ignore` returns the compiled pattern lines; when
the rule file is absent it writes the explanatory header into a new file and
compiles the empty pattern list.  The returned pair is (new file state,
pattern lines handed to `PathSpec.from_lines`). -/
def load_ai_ignore (st : IgnoreFileState) : IgnoreFileState × List String :=
  if st.present then (st, load_lines st.content)
  else ({ present := true, content := aiIgnoreHeader }, [])

/-- Model of `PathSpec.match_file` over gitwildmatch patterns: the last matching
pattern decides, a leading `!` re-includes; `single` is the single-pattern
gitwildmatch matcher, kept abstract. -/
def pathspecMatchFile (single : String → String → Bool) (pats : List String)
    (path : String) : Bool :=
  pats.foldl (fun acc pat =>
    if pat.startsWith "!" then
      if single (pat.drop 1) path then false else acc
    else if single pat path then true else acc) false

/-- The `files` table: rows of `(filepath, content)`; `filepath` is the primary
key, `updated_at` is not observed by any consumer and is omitted. -/
abbrev Store := List (String × String)

/-- `SELECT content FROM files WHERE filepath = p`. -/
def lookup (st : Store) (p : String) : Option String :=
  (st.find? (fun r => r.1 == p)).map (fun r => r.2)

/-- `DELETE FROM files WHERE filepath = p`. -/
def deleteKey (st : Store) (p : String) : Store :=
  st.filter (fun r => r.1 != p)

/-- `INSERT OR REPLACE INTO files` for one row: SQLite removes the conflicting
row and inserts the new one. -/
def upsertOne (st : Store) (k v : String) : Store :=
  deleteKey st k ++ [(k, v)]

/-- `executemany` of `INSERT OR REPLACE` over a row list, in order. -/
def upsertMany (st : Store) (data : List (String × String)) : Store :=
  data.foldl (fun s r => upsertOne s r.1 r.2) st

/-- Lexicographic (codepoint) comparison of char lists: SQLite's BINARY
collation on UTF-8 text sorts exactly this way. -/
def charListLe : List Char → List Char → Bool
  | [], _ => true
  | _ :: _, [] => false
  | a :: s, b :: t => if a = b then charListLe s t else decide (a < b)

/-- Insert a row into a key-sorted row list. -/
def insertRow (r : String × String) : List (String × String) → List (String × String)
  | [] => [r]
  | x :: rest =>
    if charListLe r.1.toList x.1.toList then r :: x :: rest else x :: insertRow r rest

/-- `SELECT filepath, content FROM files ORDER BY filepath`: the rows sorted
lexicographically by path. -/
def scan_ordered (st : Store) : List (String × String) :=
  st.foldr insertRow []

/-- The database file: the `files` table plus the single-row `project_summary`
table (`none` when the table is absent or empty). -/
structure DB where
  files : Store
  summary : Option String
deriving DecidableEq

/-- One formal parameter as `compress.py` reads it off the AST: its name and the
`ast.unparse` of its annotation when one is attached. -/
structure PyArg where
  arg : String
  annotation : Option String
deriving DecidableEq

/-- The `ast.arguments` fields `_format_args` consumes; annotation expressions
appear as their `ast.unparse` strings. -/
structure PyArgs where
  posonlyargs : List PyArg
  args : List PyArg
  kwonlyargs : List PyArg
  vararg : Option String
  kwarg : Option String
deriving DecidableEq

mutual

/-- A Python statement as `extract_python_signatures` distinguishes them:
class definitions, (async) function definitions, and everything else.  The
`doc` field is the result of `ast.get_docstring` on the node; `returns` is the
`ast.unparse` of the return annotation when present.  Function bodies are
carried but never traversed by the code. -/
inductive PyStmt : Type where
  | classDef (name : String) (doc : Option String) (body : PyBody)
  | funcDef (name : String) (args : PyArgs) (returns : Option String)
      (doc : Option String) (body : PyBody)
  | asyncFuncDef (name : String) (args : PyArgs) (returns : Option String)
      (doc : Option String) (body : PyBody)
  | other

/-- A statement list (a module or class body), in source order. -/
inductive PyBody : Type where
  | nil
  | cons (s : PyStmt) (rest : PyBody)

end

/-- Convenience: build a `PyBody` from a list. -/
def listToBody : List PyStmt → PyBody
  | [] => .nil
  | s :: rest => .cons s (listToBody rest)

/-- From `compress.py` (`_get_docstring`): when `ast.get_docstring` returns a
truthy (non-empty) string, strip it, keep the first line and strip trailing
periods; otherwise `None`. -/
def getDocstringFirstLine (doc : Option String) : Option String :=
  match doc with
  | none => none
  | some d =>
    if d = "" then none
    else some (pyRstripDots ((pySplit '\n' (pyStrip d)).headD ""))

/-- The `doc or 'нет описания'` display: Python's `or` also replaces an empty
first line with the placeholder. -/
def docDisplay (doc : Option String) : String :=
  match getDocstringFirstLine doc with
  | none => "нет описания"
  | some s => if s = "" then "нет описания" else s

/-- From `compress.py` (`_format_args`): one formatted parameter. -/
def formatArg (a : PyArg) : String :=
  match a.annotation with
  | some ann => a.arg ++ ": " ++ ann
  | none => a.arg

/-- From `compress.py` (`_format_args`): positional-only, positional and
keyword-only parameters in order, then `*vararg` and `**kwarg`, comma-joined. -/
def format_args (a : PyArgs) : String :=
  let parts := (a.posonlyargs ++ a.args ++ a.kwonlyargs).map formatArg
  let parts := parts ++ (match a.vararg with | some v => ["*" ++ v] | none => [])
  let parts := parts ++ (match a.kwarg with | some k => ["**" ++ k] | none => [])
  String.intercalate ", " parts

/-- The ` → returns` tail of a signature when a return annotation is present. -/
def retDisplay (r : Option String) : String :=
  match r with
  | some ann => " → " ++ ann
  | none => ""

mutual

/-- From `compress.py` (`_visit`): emit the line for one node and, for classes,
recurse into the class body with the class name as the new prefix string.
Function bodies are not visited. -/
def visitStmt : PyStmt → String → List String
  | .classDef n d b, _pre =>
    ("class " ++ n ++ "  →  " ++ docDisplay d) :: visitBody b (n ++ ".")
  | .funcDef n a r d _b, pre =>
    ["def " ++ pre ++ n ++ "(" ++ format_args a ++ ")" ++ retDisplay r
      ++ "  →  " ++ docDisplay d]
  | .asyncFuncDef n a r d _b, pre =>
    ["async def " ++ pre ++ n ++ "(" ++ format_args a ++ ")" ++ retDisplay r
      ++ "  →  " ++ docDisplay d]
  | .other, _pre => []

/-- `_visit` applied to each direct child in order (the appends of the shared
`signatures` list). -/
def visitBody : PyBody → String → List String
  | .nil, _pre => []
  | .cons s rest, pre => visitStmt s pre ++ visitBody rest pre

end

/-- Result of `ast.parse(content)`: the module body, or a `SyntaxError`. -/
inductive ParseResult : Type where
  | ok (body : PyBody)
  | parseError
deriving Inhabited

/-- Sentinel emitted when `ast.parse` raises. -/
def parseErrorLine : String := "[Ошибка синтаксиса Python — файл пропущен]"

/-- Sentinel emitted when no signature was collected. -/
def noDefsLine : String := "[Нет классов или функций на верхнем уровне]"

/-- From `compress.py`: `extract_python_signatures` over the parse result of the
content — visit the direct children of the module with the empty prefix; a
syntax error or an empty signature list yields a single sentinel line. -/
def extract_python_signatures : ParseResult → List String
  | .parseError => [parseErrorLine]
  | .ok body =>
    let sigs := visitBody body ""
    if sigs = [] then [noDefsLine] else sigs

/-- `PurePath.suffix` of the final path component: the part from the last dot,
when that dot is neither the first nor the last character of the name. -/
def pathSuffix (fp : String) : String :=
  let nm := (pySplit '/' fp).getLastD ""
  let cs := nm.toList
  match (cs.reverse.findIdx? (fun c => c = '.')) with
  | none => ""
  | some j =>
    let i := cs.length - 1 - j
    if 0 < i ∧ i < cs.length - 1 then String.mk (cs.drop i) else ""

/-- From `compress.py`: `generate_file_summary` — line count, then for `.py`
files the first 20 extracted signatures bulleted, otherwise a fallback note
plus the first 100 characters of the first non-blank (stripped) line.  The
parse of the content is supplied by the `parsed` oracle argument. -/
def generate_file_summary (filepath content : String) (parsed : ParseResult) : String :=
  let total_lines := (splitlines content).length
  let summary :=
    if pathSuffix filepath = ".py" then
      String.intercalate "\n"
        (((extract_python_signatures parsed).take 20).map (fun s => "  • " ++ s))
    else
      let base := "  → Язык не поддерживается для сигнатур. Используется первый непустой фрагмент."
      let ls := ((splitlines content).map pyStrip).filter (fun l => l ≠ "")
      match ls with
      | [] => base
      | l :: _ => base ++ "\n  • " ++ pyTake 100 l ++ "..."
  "Файл: " ++ filepath ++ " | " ++ toString total_lines ++ " строк\n" ++ summary ++ "\n"

/-- From `compress.py`: `extract_summaries_from_db` — scan the `files` table in
path order and produce each file's stripped summary; `parse` is the CPython
parser oracle applied to the stored content. -/
def extract_summaries_from_db (parse : String → ParseResult) (files : Store) :
    List String :=
  (scan_ordered files).map (fun r => pyStrip (generate_file_summary r.1 r.2 (parse r.2)))

/-- Eighty equals signs. -/
def eq80 : String := String.mk (List.replicate 80 '=')

/-- The fixed header of the cached aggregate summary. -/
def summaryHeader : String :=
  "РЕЗЮМЕ КОНТЕКСТА ПРОЕКТА (только сигнатуры и докстринги)\n" ++ eq80 ++ "\n"

/-- From `index.py`: `update_summary_cache` — recompute all summaries,
concatenate under the fixed header and replace the single `project_summary`
row. -/
def update_summary_cache (parse : String → ParseResult) (db : DB) : DB :=
  { db with
    summary := some (summaryHeader
      ++ String.intercalate "\n" (extract_summaries_from_db parse db.files) ++ "\n") }

/-- Result of loading the cached summary row. -/
inductive SummaryLoad : Type where
  | found (text : String)
  | notFound
deriving DecidableEq

/-- Modelled from the spec: `load_summary_from_db` is imported by `chat.py`
from the summary module but its definition is absent from the sources; per
§4.4 it reads the single cached `project_summary` row and signals a
recoverable not-found condition when the cache table is absent or empty. -/
def load_summary_from_db (db : DB) : SummaryLoad :=
  match db.summary with
  | some t => .found t
  | none => .notFound

/-- From `chat.py`: `Chat.load_resume_from_db` delegates to
`load_summary_from_db`. -/
def load_resume_from_db (db : DB) : SummaryLoad :=
  load_summary_from_db db

/-- From `index.py` (`index`): the accumulation loop of the walk — for every
walked path passing `should_index`, pair its relative path with the decoded
content; a `read_text` failure skips the file. -/
def walkIndex (decode : List Nat → String) (ign : String → Bool)
    (fs : List FSEntry) : List (String × String) :=
  fs.filterMap (fun e =>
    if should_index e ign then
      match e.rel with
      | some rel => if e.readError then none else some (rel, decode e.bytes)
      | none => none
    else none)

/-- From `index.py`: `write_to_sqlite` — bulk `INSERT OR REPLACE` of the
accumulated rows. -/
def write_to_sqlite (st : Store) (indexed_files : List (String × String)) : Store :=
  upsertMany st indexed_files

/-- From `index.py`: the `index` command (`build_full_index`) — abort when the
workspace marker directory is absent; otherwise load the ignore rules (creating
the rule file if needed), walk the tree accumulating eligible files, bulk-upsert
them and refresh the summary cache.  `single` is the gitwildmatch single-pattern
oracle and `decode` the best-effort text decoder. -/
def index (single : String → String → Bool) (decode : List Nat → String)
    (parse : String → ParseResult) (markerExists : Bool)
    (ignSt : IgnoreFileState) (fs : List FSEntry) (db : DB) :
    Option (IgnoreFileState × DB) :=
  if markerExists = false then none
  else
    let li := load_ai_ignore ignSt
    let ign := fun rel => pathspecMatchFile single li.2 rel
    let files1 := write_to_sqlite db.files (walkIndex decode ign fs)
    some (li.1, update_summary_cache parse { db with files := files1 })

/-- A filesystem event as `watchdog.py` receives it: directory flag, event
type string, and the observation of its (resolved) source path. -/
structure FsEvent where
  isDirectory : Bool
  eventType : String
  entry : FSEntry
deriving DecidableEq

/-- The check `rel_path_str.startswith(".ai-context" + os.sep) or
rel_path_str == ".ai-context"`, with `/` as the separator. -/
def insideMarkerDir (rel : String) : Bool :=
  pyStartsWith rel ".ai-context/" || rel = ".ai-context"

/-- Sixty equals signs. -/
def eq60 : String := String.mk (List.replicate 60 '=')

/-- From `watchdog.py`: `ContextUpdater.export_context_to_file` — the text of
the regenerated `context.txt` mirror: per row a `### FILE:` header line, the
raw content, and a separator line, in path order. -/
def export_context (files : Store) : String :=
  String.join ((scan_ordered files).map (fun r =>
    "### FILE: " ++ r.1 ++ " ###\n" ++ r.2 ++ "\n" ++ eq60 ++ "\n"))

/-- From `watchdog.py`: `ContextUpdater.on_any_event` — ignore directory
events, unknown event types, paths outside the root and paths inside
`.ai-context/`; delete on `deleted`; on `created`/`modified` upsert when
eligible (a read failure leaves the store unchanged) and delete when not;
then regenerate the mirror export.  Returns the new database and mirror text. -/
def on_any_event (decode : List Nat → String) (ign : String → Bool)
    (ev : FsEvent) (db : DB) (mirror : String) : DB × String :=
  if ev.isDirectory then (db, mirror)
  else if ¬(ev.eventType = "created" ∨ ev.eventType = "modified"
      ∨ ev.eventType = "deleted") then (db, mirror)
  else
    match ev.entry.rel with
    | none => (db, mirror)
    | some rel =>
      if insideMarkerDir rel then (db, mirror)
      else
        let files1 :=
          if ev.eventType = "deleted" then deleteKey db.files rel
          else if should_index ev.entry ign then
            (if ev.entry.readError then db.files
             else upsertOne db.files rel (decode ev.entry.bytes))
          else deleteKey db.files rel
        ({ db with files := files1 }, export_context files1)

/-- From `chat.py`: the pydantic `Message` — `tokens` and `response` are
optional. -/
structure Message where
  index : Nat
  role : String
  tokens : Option Nat
  response : Option String
deriving DecidableEq

/-- Python string interpolation of an optional string: `None` prints as
`"None"`. -/
def pyStr : Option String → String
  | some s => s
  | none => "None"

/-- The per-message token count used by `prepare_history`: `msg.tokens or
count_tokens(f"{role}: {response}")` — Python's `or` falls through on `None`
and on `0`.  `ct` is the tokenizer oracle. -/
def msgTokens (ct : String → Nat) (m : Message) : Nat :=
  match m.tokens with
  | some n => if n = 0 then ct (m.role ++ ": " ++ pyStr m.response) else n
  | none => ct (m.role ++ ": " ++ pyStr m.response)

/-- The loop of `Chat.prepare_history`: walk the history newest-first, break at
the first message that would push the running total past the budget, and
prepend each kept message (the `selected_messages.insert(0, ...)`). -/
def prepareHistoryLoop (ct : String → Nat) (B : Nat) :
    List Message → Nat → List (String × String) → List (String × String)
  | [], _total, sel => sel
  | m :: rest, total, sel =>
    let t := msgTokens ct m
    if B < total + t then sel
    else prepareHistoryLoop ct B rest (total + t) ((m.role, pyStr m.response) :: sel)

/-- From `chat.py`: `Chat.prepare_history` — the messages to send, each as its
`(role, content)` pair, trimmed to the `token_size` budget `B`. -/
def prepare_history (ct : String → Nat) (B : Nat) (history : List Message) :
    List (String × String) :=
  prepareHistoryLoop ct B history.reverse 0 []

/-!  Spec-side formulations used to settle the summary-generation claims.  -/

mutual

/-- Formalisation of the claim wording "the qualified name prefixed with
enclosing class names": the running prefix accumulates every enclosing class
name and is applied to class lines and function lines alike.  This is the
claim as stated, to be compared with `visitStmt` (the code). -/
def claimedVisitStmtGo : PyStmt → String → List String
  | .classDef n d b, pre =>
    ("class " ++ pre ++ n ++ "  →  " ++ docDisplay d)
      :: claimedVisitBodyGo b (pre ++ n ++ ".")
  | .funcDef n a r d _b, pre =>
    ["def " ++ pre ++ n ++ "(" ++ format_args a ++ ")" ++ retDisplay r
      ++ "  →  " ++ docDisplay d]
  | .asyncFuncDef n a r d _b, pre =>
    ["async def " ++ pre ++ n ++ "(" ++ format_args a ++ ")" ++ retDisplay r
      ++ "  →  " ++ docDisplay d]
  | .other, _pre => []

/-- Claim-as-stated traversal of a statement list. -/
def claimedVisitBodyGo : PyBody → String → List String
  | .nil, _pre => []
  | .cons s rest, pre => claimedVisitStmtGo s pre ++ claimedVisitBodyGo rest pre

end

/-- The signature list the claim describes: one line per definition found by
the traversal, with fully qualified (all enclosing class names) names. -/
def claimedSignatures : ParseResult → List String
  | .parseError => [parseErrorLine]
  | .ok body =>
    let sigs := claimedVisitBodyGo body ""
    if sigs = [] then [noDefsLine] else sigs

/-- One definition found by the traversal, as the amended claim describes it:
a class line carries only its own name and docstring (never a prefix); a
function line carries its async flag, its own name, the name of its
immediately enclosing class when defined inside one, its parameters, its
return annotation and its docstring. -/
inductive DefEntry : Type where
  | cls (ownName : String) (doc : Option String)
  | fn (isAsync : Bool) (ownName : String) (enclosing : Option String)
      (args : PyArgs) (returns : Option String) (doc : Option String)

mutual

/-- Collect the definitions the traversal finds in one statement, tracking the
immediately enclosing class name; function bodies are not entered. -/
def collectStmt : Option String → PyStmt → List DefEntry
  | _c, .classDef n d b => .cls n d :: collectBody (some n) b
  | c, .funcDef n a r d _b => [.fn false n c a r d]
  | c, .asyncFuncDef n a r d _b => [.fn true n c a r d]
  | _c, .other => []

/-- Collect the definitions of a statement list, in source order. -/
def collectBody : Option String → PyBody → List DefEntry
  | _c, .nil => []
  | c, .cons s rest => collectStmt c s ++ collectBody c rest

end

/-- The amended qualified name: the immediately enclosing class name and a
dot when the definition sits in a class body, the bare name otherwise. -/
def qualName : Option String → String → String
  | none, n => n
  | some c, n => c ++ "." ++ n

/-- Format one collected definition as its emitted line. -/
def formatEntry : DefEntry → String
  | .cls n d => "class " ++ n ++ "  →  " ++ docDisplay d
  | .fn false n c a r d =>
    "def " ++ qualName c n ++ "(" ++ format_args a ++ ")" ++ retDisplay r
      ++ "  →  " ++ docDisplay d
  | .fn true n c a r d =>
    "async def " ++ qualName c n ++ "(" ++ format_args a ++ ")" ++ retDisplay r
      ++ "  →  " ++ docDisplay d

/-- The signature list as the amended claim describes it: the collected
definitions in source order, one formatted line each, with the two sentinel
cases. -/
def amendedSignatures : ParseResult → List String
  | .parseError => [parseErrorLine]
  | .ok body =>
    let l := (collectBody none body).map formatEntry
    if l = [] then [noDefsLine] else l

/-- The prefix string the code threads for a given enclosing class. -/
def enclPrefix : Option String → String
  | none => ""
  | some c => c ++ "."

/-- The last value written for a key in a row list (the row SQLite keeps after
`executemany` of `INSERT OR REPLACE`). -/
def lookupLast (data : List (String × String)) (p : String) : Option String :=
  (data.reverse.find? (fun r => r.1 == p)).map (fun r => r.2)

/-- The `(role, content)` pair `prepare_history` builds for one message. -/
def toPair (m : Message) : String × String :=
  (m.role, pyStr m.response)

/-- Total token count of a message list. -/
def sumTokens (ct : String → Nat) (l : List Message) : Nat :=
  (l.map (msgTokens ct)).sum

/-- The kept suffix of `prepare_history`, computed front-to-back on the
reversed history: take messages while the running total stays within budget. -/
def takeBudget (ct : String → Nat) (B : Nat) : List Message → Nat → List Message
  | [], _total => []
  | m :: rest, total =>
    let t := msgTokens ct m
    if B < total + t then [] else m :: takeBudget ct B rest (total + t)

/-!  Store lemmas.  -/

theorem lookup_append (a b : Store) (p : String) :
    lookup (a ++ b) p = (lookup a p).or (lookup b p) := by
  unfold lookup
  rw [List.find?_append]
  cases a.find? (fun r => r.1 == p) <;> simp

theorem lookup_singleton (k v p : String) :
    lookup [(k, v)] p = if k = p then some v else none := by
  unfold lookup
  by_cases h : k = p
  · simp [List.find?, h]
  · have hb : (k == p) = false := beq_eq_false_iff_ne.mpr h
    simp [List.find?, hb, h]

theorem lookup_deleteKey_self (st : Store) (p : String) :
    lookup (deleteKey st p) p = none := by
  unfold lookup deleteKey
  rw [Option.map_eq_none', List.find?_eq_none]
  intro x hx
  have hne := (List.mem_filter.mp hx).2
  simp only [bne_iff_ne, ne_eq] at hne
  simp [hne]

theorem lookup_deleteKey_ne (st : Store) (p q : String) (h : q ≠ p) :
    lookup (deleteKey st p) q = lookup st q := by
  induction st with
  | nil => rfl
  | cons r rest ih =>
    unfold deleteKey at ih ⊢
    by_cases hr : r.1 = p
    · have hq : (r.1 == q) = false := by
        refine beq_eq_false_iff_ne.mpr ?_
        rw [hr]
        exact fun hh => h hh.symm
      rw [List.filter_cons_of_neg (by simp [bne, hr]), ih]
      unfold lookup
      rw [List.find?_cons_of_neg rest (by simp [hq])]
    · rw [List.filter_cons_of_pos (by simp [bne, hr])]
      unfold lookup
      by_cases hrq : r.1 = q
      · rw [List.find?_cons_of_pos _ (by simp [hrq]),
          List.find?_cons_of_pos _ (by simp [hrq])]
      · rw [List.find?_cons_of_neg _ (by simp [hrq]),
          List.find?_cons_of_neg _ (by simp [hrq])]
        exact ih

theorem lookup_upsertOne (st : Store) (k v p : String) :
    lookup (upsertOne st k v) p = if k = p then some v else lookup st p := by
  unfold upsertOne
  rw [lookup_append, lookup_singleton]
  by_cases h : k = p
  · subst h
    rw [lookup_deleteKey_self]
    simp
  · rw [lookup_deleteKey_ne st k p (fun hh => h hh.symm)]
    simp [h]

theorem lookupLast_cons (k v : String) (rest : List (String × String)) (p : String) :
    lookupLast ((k, v) :: rest) p
      = (lookupLast rest p).or (if k = p then some v else none) := by
  unfold lookupLast
  rw [List.reverse_cons, List.find?_append]
  cases rest.reverse.find? (fun r => r.1 == p) with
  | none =>
    by_cases h : k = p
    · simp [List.find?, h]
    · have hb : (k == p) = false := beq_eq_false_iff_ne.mpr h
      simp [List.find?, hb, h]
  | some r => simp

theorem lookup_upsertMany (st : Store) (data : List (String × String)) (p : String) :
    lookup (upsertMany st data) p = (lookupLast data p).or (lookup st p) := by
  induction data generalizing st with
  | nil => simp [upsertMany, lookupLast]
  | cons r rest ih =>
    obtain ⟨k, v⟩ := r
    have hstep : upsertMany st ((k, v) :: rest) = upsertMany (upsertOne st k v) rest := rfl
    rw [hstep, ih, lookupLast_cons, lookup_upsertOne]
    cases lookupLast rest p <;> by_cases h : k = p <;> simp [h]

theorem lookupLast_eq_none (data : List (String × String)) (p : String)
    (h : p ∉ data.map Prod.fst) : lookupLast data p = none := by
  unfold lookupLast
  rw [Option.map_eq_none', List.find?_eq_none]
  intro x hx
  have hxm : x ∈ data := List.mem_reverse.mp hx
  intro hbeq
  exact h (List.mem_map.mpr ⟨x, hxm, beq_iff_eq.mp hbeq⟩)

theorem deleteKey_eq_self (st : Store) (p : String) (h : lookup st p = none) :
    deleteKey st p = st := by
  unfold deleteKey
  rw [List.filter_eq_self]
  intro r hr
  unfold lookup at h
  rw [Option.map_eq_none', List.find?_eq_none] at h
  simpa [bne] using h r hr

theorem upsertMany_fresh (data : List (String × String)) :
    ∀ st : Store, (∀ r ∈ data, lookup st r.1 = none) →
    (data.map Prod.fst).Nodup → upsertMany st data = st ++ data := by
  induction data with
  | nil => intro st _ _; simp [upsertMany]
  | cons r rest ih =>
    intro st hdisj hnd
    obtain ⟨k, v⟩ := r
    have hstep : upsertMany st ((k, v) :: rest) = upsertMany (upsertOne st k v) rest := rfl
    have hk : lookup st k = none := hdisj (k, v) (List.mem_cons_self _ _)
    have h1 : upsertOne st k v = st ++ [(k, v)] := by
      unfold upsertOne
      rw [deleteKey_eq_self st k hk]
    rw [hstep, h1]
    rw [List.map_cons, List.nodup_cons] at hnd
    have hdisj2 : ∀ r ∈ rest, lookup (st ++ [(k, v)]) r.1 = none := by
      intro r hr
      rw [lookup_append, lookup_singleton]
      have hne : k ≠ r.1 := fun he => hnd.1 (he ▸ List.mem_map.mpr ⟨r, hr, rfl⟩)
      rw [hdisj r (List.mem_cons_of_mem _ hr)]
      simp [hne]
    rw [ih (st ++ [(k, v)]) hdisj2 hnd.2, List.append_assoc]
    rfl

theorem insertRow_perm (r : String × String) (l : List (String × String)) :
    List.Perm (insertRow r l) (r :: l) := by
  induction l with
  | nil => exact List.Perm.refl _
  | cons x rest ih =>
    by_cases h : charListLe r.1.toList x.1.toList = true
    · simp only [insertRow]
      rw [if_pos h]
    · simp only [insertRow]
      rw [if_neg h]
      exact (List.Perm.cons x ih).trans (List.Perm.swap r x rest)

theorem scan_ordered_perm (st : Store) : List.Perm (scan_ordered st) st := by
  induction st with
  | nil => exact List.Perm.refl _
  | cons r rest ih =>
    have hstep : scan_ordered (r :: rest) = insertRow r (scan_ordered rest) := rfl
    rw [hstep]
    exact (insertRow_perm r (scan_ordered rest)).trans (List.Perm.cons r ih)

theorem mem_scan_ordered (st : Store) (r : String × String) :
    r ∈ scan_ordered st ↔ r ∈ st :=
  (scan_ordered_perm st).mem_iff

/-!  History-trimming lemmas.  -/

theorem prepareHistoryLoop_eq (ct : String → Nat) (B : Nat) (l : List Message) :
    ∀ total sel, prepareHistoryLoop ct B l total sel
      = ((takeBudget ct B l total).reverse.map toPair) ++ sel := by
  induction l with
  | nil => intro total sel; simp [prepareHistoryLoop, takeBudget]
  | cons m rest ih =>
    intro total sel
    simp only [prepareHistoryLoop, takeBudget]
    by_cases h : B < total + msgTokens ct m
    · simp [h]
    · simp only [h, if_false, ih, List.reverse_cons, List.map_append,
        List.append_assoc]
      simp [toPair]

theorem takeBudget_isTake (ct : String → Nat) (B : Nat) (l : List Message) :
    ∀ total, ∃ j, j ≤ l.length ∧ takeBudget ct B l total = l.take j := by
  induction l with
  | nil => intro total; exact ⟨0, Nat.le_refl 0, rfl⟩
  | cons m rest ih =>
    intro total
    by_cases h : B < total + msgTokens ct m
    · exact ⟨0, Nat.zero_le _, by simp [takeBudget, h]⟩
    · obtain ⟨j, hj, he⟩ := ih (total + msgTokens ct m)
      exact ⟨j + 1, by simpa using hj, by simp [takeBudget, h, he]⟩

theorem sum_takeBudget_le (ct : String → Nat) (B : Nat) (l : List Message) :
    ∀ total, total ≤ B → total + sumTokens ct (takeBudget ct B l total) ≤ B := by
  induction l with
  | nil => intro total h; simpa [takeBudget, sumTokens] using h
  | cons m rest ih =>
    intro total h
    by_cases hov : B < total + msgTokens ct m
    · simpa [takeBudget, hov, sumTokens] using h
    · have := ih (total + msgTokens ct m) (Nat.le_of_not_lt hov)
      simp only [takeBudget, hov, if_false, sumTokens, List.map_cons,
        List.sum_cons] at this ⊢
      omega

theorem takeBudget_stop (ct : String → Nat) (B : Nat) (l : List Message) :
    ∀ total, takeBudget ct B l total ≠ l →
      ∃ m rest2, l = takeBudget ct B l total ++ m :: rest2
        ∧ B < total + sumTokens ct (takeBudget ct B l total) + msgTokens ct m := by
  induction l with
  | nil => intro total hne; exact absurd rfl hne
  | cons m rest ih =>
    intro total hne
    by_cases hov : B < total + msgTokens ct m
    · refine ⟨m, rest, by simp [takeBudget, hov], ?_⟩
      simp [takeBudget, hov, sumTokens]
    · have hrec : takeBudget ct B rest (total + msgTokens ct m) ≠ rest := by
        intro he
        exact hne (by simp [takeBudget, hov, he])
      obtain ⟨m2, rest2, he, hlt⟩ := ih (total + msgTokens ct m) hrec
      refine ⟨m2, rest2, ?_, ?_⟩
      · simp [takeBudget, hov]
        exact he
      · simp only [takeBudget, hov, if_false, sumTokens, List.map_cons,
          List.sum_cons]
        simp only [sumTokens] at hlt
        omega

/-!  Bridge between the code's signature traversal and the amended-claim
collection: the code's `_visit`, started with the prefix of a given enclosing
class, emits exactly the formatted collected definitions.  -/

mutual

theorem visitStmt_eq_collect :
    ∀ (s : PyStmt) (c : Option String),
      visitStmt s (enclPrefix c) = (collectStmt c s).map formatEntry
  | .classDef n d b, c => by
    have ih := visitBody_eq_collect b (some n)
    simp only [visitStmt, collectStmt, List.map_cons, formatEntry]
    exact congrArg _ ih
  | .funcDef n a r d b, c => by
    cases c <;> simp [visitStmt, collectStmt, formatEntry, qualName,
      enclPrefix, String.append_assoc]
  | .asyncFuncDef n a r d b, c => by
    cases c <;> simp [visitStmt, collectStmt, formatEntry, qualName,
      enclPrefix, String.append_assoc]
  | .other, c => by simp [visitStmt, collectStmt]

theorem visitBody_eq_collect :
    ∀ (b : PyBody) (c : Option String),
      visitBody b (enclPrefix c) = (collectBody c b).map formatEntry
  | .nil, c => by simp [visitBody, collectBody]
  | .cons s rest, c => by
    have ih1 := visitStmt_eq_collect s c
    have ih2 := visitBody_eq_collect rest c
    simp only [visitBody, collectBody, List.map_append, ih1, ih2]

end

/-- A binary classification forces exclusion whatever the other criteria say. -/
theorem should_index_false_of_binary (e : FSEntry) (ign : String → Bool)
    (hb : is_binary e = true) : should_index e ign = false := by
  unfold should_index
  cases hf : e.isFile
  · simp [hf]
  · cases hrel : e.rel with
    | none => simp [hf]
    | some rel => by_cases hi : ign rel <;> simp [hf, hi, hb]

/-!  Claim theorems and witnesses.  -/

/-- C5: a path whose first 1024 sampled bytes contain a null byte is excluded
by `should_index` regardless of extension and ignore rules, and an I/O failure
while sampling classifies the file as binary — hence also excluded — instead
of propagating. -/
theorem C5_null_byte_and_sample_error_excluded (e : FSEntry) (ign : String → Bool) :
    ((e.bytes.take 1024).contains 0 = true → should_index e ign = false)
    ∧ (e.sampleError = true → is_binary e = true ∧ should_index e ign = false) := by
  constructor
  · intro h
    refine should_index_false_of_binary e ign ?_
    unfold is_binary
    by_cases hs : e.sampleError = true
    · rw [if_pos hs]
    · rw [if_neg hs]
      exact h
  · intro h
    have hb : is_binary e = true := by unfold is_binary; simp [h]
    exact ⟨hb, should_index_false_of_binary e ign hb⟩

/-- The everything-included matcher used in concrete checks. -/
def ignNone : String → Bool := fun _ => false

/-- A file whose first bytes contain a null byte. -/
def eNull : FSEntry := ⟨"/w/x.bin", true, some "x.bin", false, [0, 65], false⟩

/-- A file whose 1024-byte sampling raises. -/
def eSampleErr : FSEntry := ⟨"/w/y.txt", true, some "y.txt", true, [65], false⟩

/-- Witness for C5: the null-byte file and the unreadable file are both
excluded at concrete inputs. -/
theorem C5_witness :
    should_index eNull ignNone = false ∧ is_binary eSampleErr = true :=
  ⟨(C5_null_byte_and_sample_error_excluded eNull ignNone).1 (by decide),
   ((C5_null_byte_and_sample_error_excluded eSampleErr ignNone).2 (by decide)).1⟩

/-- C7: an event whose relative path lies inside the `.ai-context` marker
directory changes nothing at all — the files table, the summary row and the
mirror export text all come back untouched. -/
theorem C7_marker_events_ignored (decode : List Nat → String) (ign : String → Bool)
    (ev : FsEvent) (db : DB) (mirror : String) (rel : String)
    (hrel : ev.entry.rel = some rel) (hmk : insideMarkerDir rel = true) :
    on_any_event decode ign ev db mirror = (db, mirror) := by
  unfold on_any_event
  by_cases hd : ev.isDirectory = true
  · simp [hd]
  · by_cases ht : ev.eventType = "created" ∨ ev.eventType = "modified"
        ∨ ev.eventType = "deleted"
    · simp [hd, ht, hrel, hmk]
    · simp [hd, ht]

/-- An event on the tool's own database file. -/
def evMarker : FsEvent :=
  ⟨false, "modified",
    ⟨"/w/.ai-context/context.db", true, some ".ai-context/context.db", false, [65], false⟩⟩

/-- A small database used by concrete checks. -/
def dbW : DB := ⟨[("a.py", "x")], some "S"⟩

/-- Witness for C7 at a concrete event inside `.ai-context/`. -/
theorem C7_witness :
    on_any_event (fun _ => "") ignNone evMarker dbW "M" = (dbW, "M") :=
  C7_marker_events_ignored (fun _ => "") ignNone evMarker dbW "M"
    ".ai-context/context.db" rfl (by decide)

/-- C9: when the ignore rule file is absent, `load_ai_ignore` creates it with
the single explanatory comment-header line and returns the empty pattern
list, whose matcher excludes no path. -/
theorem C9_absent_rule_file (st : IgnoreFileState) (h : st.present = false) :
    (load_ai_ignore st).1.present = true
    ∧ (load_ai_ignore st).1.content = aiIgnoreHeader
    ∧ splitlines aiIgnoreHeader
        = ["# Add file/folder patterns to ignore (like .gitignore)"]
    ∧ pyStartsWith aiIgnoreHeader "#" = true
    ∧ (load_ai_ignore st).2 = []
    ∧ ∀ (single : String → String → Bool) (p : String),
        pathspecMatchFile single (load_ai_ignore st).2 p = false := by
  have hload : load_ai_ignore st = ({ present := true, content := aiIgnoreHeader }, []) := by
    unfold load_ai_ignore
    rw [if_neg (by simp [h])]
  rw [hload]
  exact ⟨rfl, rfl, by decide, by decide, rfl, fun single p => rfl⟩

/-- Witness for C9 at the concrete absent-file state. -/
theorem C9_witness :
    (load_ai_ignore ⟨false, ""⟩).1.content = aiIgnoreHeader
    ∧ pathspecMatchFile (fun _ _ => true) (load_ai_ignore ⟨false, ""⟩).2
        "any/path.py" = false := by
  obtain ⟨_, h2, _, _, _, h6⟩ := C9_absent_rule_file ⟨false, ""⟩ rfl
  exact ⟨h2, h6 _ _⟩

/-- C4 (spec-modelled): `load_summary_from_db` returns the cached summary text
when the single `project_summary` row exists, signals the recoverable
not-found condition when the cache is absent or empty, and always finds a row
right after `update_summary_cache`. -/
theorem C4_load_summary_contract (db : DB) :
    (∀ t, db.summary = some t → load_summary_from_db db = .found t)
    ∧ (db.summary = none → load_summary_from_db db = .notFound)
    ∧ ∀ parse : String → ParseResult, ∃ t,
        load_summary_from_db (update_summary_cache parse db) = .found t := by
  refine ⟨?_, ?_, ?_⟩
  · intro t h
    simp [load_summary_from_db, h]
  · intro h
    simp [load_summary_from_db, h]
  · intro parse
    exact ⟨_, rfl⟩

/-- Witness for C4: a present row is found, an absent row reports not-found. -/
theorem C4_witness :
    load_summary_from_db ⟨[], some "S"⟩ = .found "S"
    ∧ load_summary_from_db ⟨[], none⟩ = .notFound :=
  ⟨(C4_load_summary_contract ⟨[], some "S"⟩).1 "S" rfl,
   (C4_load_summary_contract ⟨[], none⟩).2.1 rfl⟩

/-- C6: a `modified` event on a path that now fails eligibility deletes that
path's row from the files table and leaves the `project_summary` cache row
unchanged. -/
theorem C6_modified_ineligible_deletes (decode : List Nat → String)
    (ign : String → Bool) (ev : FsEvent) (db : DB) (mirror : String) (rel : String)
    (hd : ev.isDirectory = false) (ht : ev.eventType = "modified")
    (hrel : ev.entry.rel = some rel) (hmk : insideMarkerDir rel = false)
    (hsi : should_index ev.entry ign = false) :
    (on_any_event decode ign ev db mirror).1.files = deleteKey db.files rel
    ∧ lookup (on_any_event decode ign ev db mirror).1.files rel = none
    ∧ (on_any_event decode ign ev db mirror).1.summary = db.summary := by
  have hres : on_any_event decode ign ev db mirror
      = ({ db with files := deleteKey db.files rel },
         export_context (deleteKey db.files rel)) := by
    unfold on_any_event
    simp [hd, ht, hrel, hmk, hsi]
  rw [hres]
  exact ⟨rfl, lookup_deleteKey_self db.files rel, rfl⟩

/-- A `modified` event for a file grown past the 1,000,000-byte ceiling. -/
def evBig : FsEvent :=
  ⟨false, "modified",
    ⟨"/w/big.txt", true, some "big.txt", false, List.replicate 1000001 1, false⟩⟩

/-- A database that still holds the oversized file's record. -/
def dbBig : DB := ⟨[("big.txt", "old"), ("keep.py", "k")], some "S"⟩

/-- An oversized file is excluded whatever the other criteria say. -/
theorem should_index_false_of_large (e : FSEntry) (ign : String → Bool)
    (h : e.bytes.length > 1000000) : should_index e ign = false := by
  unfold should_index
  cases hf : e.isFile
  · simp
  · cases hrel : e.rel with
    | none => simp
    | some rel =>
      by_cases hi : ign rel
      · simp [hi]
      · by_cases hb : is_binary e = true
        · simp [hi, hb]
        · simp [hi, hb, h]

/-- Witness for C6: the oversized file's row is removed and the summary cache
row survives. -/
theorem C6_witness :
    lookup (on_any_event (fun _ => "") ignNone evBig dbBig "M").1.files "big.txt" = none
    ∧ (on_any_event (fun _ => "") ignNone evBig dbBig "M").1.summary = some "S" := by
  have hsize : evBig.entry.bytes.length > 1000000 := by
    rw [show evBig.entry.bytes = List.replicate 1000001 1 from rfl,
      List.length_replicate]
    norm_num
  obtain ⟨h1, h2, h3⟩ := C6_modified_ineligible_deletes (fun _ => "") ignNone
    evBig dbBig "M" "big.txt" rfl rfl rfl (by decide)
    (should_index_false_of_large evBig.entry ignNone hsize)
  exact ⟨h2, h3⟩

/-- C8: for a Python file whose extracted signature list exceeds 20 entries,
the generated summary body is exactly the first 20 signature lines bulleted
under the line-count header — the cap keeps 20 lines, and the output is
determined by the first 20 signatures alone (no overflow indicator). -/
theorem C8_summary_cap (fp c : String) (body : PyBody)
    (hpy : pathSuffix fp = ".py")
    (h20 : 20 < (extract_python_signatures (.ok body)).length) :
    generate_file_summary fp c (.ok body)
      = "Файл: " ++ fp ++ " | " ++ toString (splitlines c).length ++ " строк\n"
        ++ String.intercalate "\n"
          (((extract_python_signatures (.ok body)).take 20).map (fun s => "  • " ++ s))
        ++ "\n"
    ∧ ((extract_python_signatures (.ok body)).take 20).length = 20
    ∧ ∀ body2 : PyBody,
        (extract_python_signatures (.ok body2)).take 20
          = (extract_python_signatures (.ok body)).take 20 →
        generate_file_summary fp c (.ok body2) = generate_file_summary fp c (.ok body) := by
  refine ⟨?_, ?_, ?_⟩
  · unfold generate_file_summary
    rw [if_pos hpy]
  · rw [List.length_take]
    omega
  · intro body2 he
    unfold generate_file_summary
    rw [if_pos hpy, if_pos hpy, he]

/-- An empty `ast.arguments`. -/
def emptyArgs : PyArgs := ⟨[], [], [], none, none⟩

/-- A module body with 25 top-level function definitions. -/
def body25 : PyBody :=
  listToBody (List.replicate 25 (.funcDef "f" emptyArgs none none .nil))

/-- Witness for C8 at a 25-definition file. -/
theorem C8_witness :
    pathSuffix "a.py" = ".py"
    ∧ 20 < (extract_python_signatures (.ok body25)).length
    ∧ ((extract_python_signatures (.ok body25)).take 20).length = 20 :=
  ⟨by decide, by decide,
   (C8_summary_cap "a.py" "" body25 (by decide) (by decide)).2.1⟩

/-- A doubly nested definition: `class A:` containing `class B:` (with a
docstring) containing `def m(self): ...` — written without `self` for brevity
of the parameter model. -/
def bodyNested : PyBody :=
  .cons (.classDef "A" none
    (.cons (.classDef "B" (some "doc")
      (.cons (.funcDef "m" emptyArgs none none .nil) .nil)) .nil)) .nil

/-- C3 counterexample: the code emits the nested class line without any
enclosing-class prefix and prefixes the method with only the innermost class
name, so its output differs from the claimed fully qualified names at this
concrete input. -/
theorem C3_counterexample :
    extract_python_signatures (.ok bodyNested)
      = ["class A  →  нет описания", "class B  →  doc",
         "def B.m()  →  нет описания"]
    ∧ claimedSignatures (.ok bodyNested)
      = ["class A  →  нет описания", "class A.B  →  doc",
         "def A.B.m()  →  нет описания"]
    ∧ extract_python_signatures (.ok bodyNested) ≠ claimedSignatures (.ok bodyNested) :=
  ⟨by decide, by decide, by decide⟩

/-- C3 amended: for every parse result, the emitted signature list is exactly
one line per definition found by the traversal (module body and class bodies;
function bodies are not entered), in source order, each line carrying the kind
keyword, the name prefixed — for functions and methods only — by the
immediately enclosing class name, the parameter list with annotations when
present, the return annotation when present, and the first docstring line
(trailing periods stripped) or the no-description placeholder; with the
sentinel lines for a syntax error and for an empty signature list. -/
theorem C3_signature_lines_amended (pr : ParseResult) :
    extract_python_signatures pr = amendedSignatures pr := by
  cases pr with
  | parseError => rfl
  | ok body =>
    have h := visitBody_eq_collect body none
    simp only [enclPrefix] at h
    simp only [extract_python_signatures, amendedSignatures, h]

/-- C2: a completed full build only upserts — every path re-encountered by the
walk ends up holding the walk's (last-written) content, every other record is
left byte-for-byte unchanged, and no record is ever deleted. -/
theorem C2_full_build_upsert_only (single : String → String → Bool)
    (decode : List Nat → String) (parse : String → ParseResult)
    (ignSt : IgnoreFileState) (fs : List FSEntry) (db : DB)
    (ignSt2 : IgnoreFileState) (db2 : DB)
    (hrun : index single decode parse true ignSt fs db = some (ignSt2, db2)) :
    (∀ p, p ∉ (walkIndex decode
        (fun rel => pathspecMatchFile single (load_ai_ignore ignSt).2 rel) fs).map Prod.fst →
      lookup db2.files p = lookup db.files p)
    ∧ (∀ p v, lookupLast (walkIndex decode
        (fun rel => pathspecMatchFile single (load_ai_ignore ignSt).2 rel) fs) p = some v →
      lookup db2.files p = some v)
    ∧ (∀ p, (lookup db.files p).isSome → (lookup db2.files p).isSome) := by
  have hfiles : db2.files = upsertMany db.files (walkIndex decode
      (fun rel => pathspecMatchFile single (load_ai_ignore ignSt).2 rel) fs) := by
    unfold index at hrun
    rw [if_neg (by simp)] at hrun
    obtain ⟨-, h2⟩ := Prod.mk.injEq .. ▸ Option.some.inj hrun
    rw [← h2]
    rfl
  refine ⟨?_, ?_, ?_⟩
  · intro p hp
    rw [hfiles, lookup_upsertMany, lookupLast_eq_none _ p hp]
    rfl
  · intro p v hv
    rw [hfiles, lookup_upsertMany, hv]
    rfl
  · intro p hp
    rw [hfiles, lookup_upsertMany]
    cases lookupLast (walkIndex decode
        (fun rel => pathspecMatchFile single (load_ai_ignore ignSt).2 rel) fs) p with
    | none => simpa using hp
    | some v => simp

/-- Decoder used in concrete full-build checks. -/
def decodeW : List Nat → String := fun bs => if bs = [65] then "new" else "?"

/-- Parser oracle used in concrete full-build checks. -/
def parseW : String → ParseResult := fun _ => .parseError

/-- Single-pattern matcher oracle that matches nothing. -/
def singleW : String → String → Bool := fun _ _ => false

/-- An existing, empty ignore-rule file. -/
def ignStW : IgnoreFileState := ⟨true, ""⟩

/-- A one-file walk: `a.py` is eligible and readable. -/
def fsW : List FSEntry := [⟨"/w/a.py", true, some "a.py", false, [65], false⟩]

/-- A prior store holding stale content for `a.py` and a record for a path the
walk no longer visits. -/
def dbPrior : DB := ⟨[("a.py", "old"), ("gone", "keep")], none⟩

/-- Witness for C2: after the concrete build, `a.py` holds the fresh content
and the stale `gone` record survives unchanged. -/
theorem C2_witness :
    ∃ st2 db2, index singleW decodeW parseW true ignStW fsW dbPrior = some (st2, db2)
      ∧ lookup db2.files "gone" = some "keep"
      ∧ lookup db2.files "a.py" = some "new" := by
  obtain ⟨h1, h2, h3⟩ := C2_full_build_upsert_only singleW decodeW parseW
    ignStW fsW dbPrior _ _ rfl
  refine ⟨_, _, rfl, ?_, ?_⟩
  · rw [h1 "gone" (by decide)]
    decide
  · exact h2 "a.py" "new" (by decide)

/-- Characterisation of the rows the walk accumulates. -/
theorem walkIndex_mem (decode : List Nat → String) (ign : String → Bool)
    (fs : List FSEntry) (p c : String) :
    (p, c) ∈ walkIndex decode ign fs ↔
      ∃ e, e ∈ fs ∧ should_index e ign = true ∧ e.rel = some p
        ∧ e.readError = false ∧ c = decode e.bytes := by
  unfold walkIndex
  rw [List.mem_filterMap]
  constructor
  · rintro ⟨e, he, hf⟩
    refine ⟨e, he, ?_⟩
    by_cases hsi : should_index e ign = true
    · rw [if_pos hsi] at hf
      cases hrel : e.rel with
      | none =>
        rw [hrel] at hf
        simp at hf
      | some rel =>
        rw [hrel] at hf
        by_cases hre : e.readError = true
        · simp [hre] at hf
        · simp only [hre, if_false] at hf
          obtain ⟨h1, h2⟩ := Prod.mk.injEq .. ▸ Option.some.inj hf
          exact ⟨hsi, by rw [h1], by simp [hre], h2.symm⟩
    · rw [if_neg hsi] at hf
      simp at hf
  · rintro ⟨e, he, hsi, hrel, hre, hc⟩
    refine ⟨e, he, ?_⟩
    rw [if_pos hsi, hrel]
    simp [hre, hc]

/-- C1 amended: starting from an empty store, a completed full build leaves
`scan_ordered` returning exactly the relative paths that satisfied
`should_index` at walk time and whose text read succeeded, each paired with
the decoded on-disk bytes.  (From a non-empty prior store the exactness fails:
stale records survive, see the counterexample.) -/
theorem C1_round_trip_amended (single : String → String → Bool)
    (decode : List Nat → String) (parse : String → ParseResult)
    (ignSt : IgnoreFileState) (fs : List FSEntry)
    (hnd : ((walkIndex decode
        (fun rel => pathspecMatchFile single (load_ai_ignore ignSt).2 rel) fs).map
        Prod.fst).Nodup)
    (ignSt2 : IgnoreFileState) (db2 : DB)
    (hrun : index single decode parse true ignSt fs ⟨[], none⟩ = some (ignSt2, db2)) :
    ∀ p c, (p, c) ∈ scan_ordered db2.files ↔
      ∃ e, e ∈ fs
        ∧ should_index e (fun rel => pathspecMatchFile single (load_ai_ignore ignSt).2 rel) = true
        ∧ e.rel = some p ∧ e.readError = false ∧ c = decode e.bytes := by
  intro p c
  have hfiles : db2.files = upsertMany [] (walkIndex decode
      (fun rel => pathspecMatchFile single (load_ai_ignore ignSt).2 rel) fs) := by
    unfold index at hrun
    rw [if_neg (by simp)] at hrun
    obtain ⟨-, h2⟩ := Prod.mk.injEq .. ▸ Option.some.inj hrun
    rw [← h2]
    rfl
  have hdata : upsertMany [] (walkIndex decode
      (fun rel => pathspecMatchFile single (load_ai_ignore ignSt).2 rel) fs)
      = walkIndex decode
        (fun rel => pathspecMatchFile single (load_ai_ignore ignSt).2 rel) fs := by
    have := upsertMany_fresh (walkIndex decode
      (fun rel => pathspecMatchFile single (load_ai_ignore ignSt).2 rel) fs)
      [] (fun r _ => rfl) hnd
    simpa using this
  rw [hfiles, hdata, mem_scan_ordered]
  exact walkIndex_mem decode _ fs p c

/-- Witness for C1 (amended): the concrete one-file build from an empty store
scans back exactly that file with its decoded content. -/
theorem C1_witness :
    ∃ st2 db2, index singleW decodeW parseW true ignStW fsW ⟨[], none⟩ = some (st2, db2)
      ∧ ("a.py", "new") ∈ scan_ordered db2.files := by
  refine ⟨_, _, rfl, ?_⟩
  refine (C1_round_trip_amended singleW decodeW parseW ignStW fsW (by decide)
    _ _ rfl "a.py" "new").mpr ?_
  exact ⟨⟨"/w/a.py", true, some "a.py", false, [65], false⟩, by decide, by decide,
    rfl, rfl, by decide⟩

/-- A prior store holding a record for a path the (empty) walk never visits. -/
def dbGhost : DB := ⟨[("ghost", "old")], none⟩

/-- C1 counterexample: from a non-empty prior store, a completed full build
over an empty walk still returns the stale `ghost` record from
`scan_ordered`, although no walked path satisfied `should_index` — the claim's
"exactly the set of paths satisfying `should_index` at walk time" fails for
arbitrary filesystem states once the prior store is non-empty. -/
theorem C1_counterexample :
    ∃ st2 db2, index singleW decodeW parseW true ignStW [] dbGhost = some (st2, db2)
      ∧ ("ghost", "old") ∈ scan_ordered db2.files
      ∧ ¬∃ e : FSEntry, e ∈ ([] : List FSEntry) ∧ e.rel = some "ghost" := by
  refine ⟨_, _, rfl, by decide, ?_⟩
  rintro ⟨e, he, -⟩
  cases he

/-- C10: `prepare_history` returns a contiguous suffix of the history (the
most recent messages) in chronological order, its summed per-message token
counts never exceed the budget, and it stops at the first message — scanning
newest to oldest — that would overflow the budget. -/
theorem C10_prepare_history (ct : String → Nat) (B : Nat) (h : List Message) :
    ∃ k, k ≤ h.length
      ∧ prepare_history ct B h = (h.drop k).map toPair
      ∧ sumTokens ct (h.drop k) ≤ B
      ∧ (0 < k → B < sumTokens ct (h.drop (k - 1))) := by
  obtain ⟨j, hj, he⟩ := takeBudget_isTake ct B h.reverse 0
  rw [List.length_reverse] at hj
  have hdrop : (h.reverse.take j).reverse = h.drop (h.length - j) := by
    rw [List.reverse_take]
    simp
  refine ⟨h.length - j, Nat.sub_le _ _, ?_, ?_, ?_⟩
  · rw [show prepare_history ct B h = prepareHistoryLoop ct B h.reverse 0 [] from rfl,
      prepareHistoryLoop_eq, List.append_nil, he, ← hdrop, List.map_reverse]
  · rw [← hdrop]
    have hsum : sumTokens ct ((h.reverse.take j).reverse) = sumTokens ct (h.reverse.take j) := by
      unfold sumTokens
      rw [List.map_reverse, List.sum_reverse]
    rw [hsum, ← he]
    have := sum_takeBudget_le ct B h.reverse 0 (Nat.zero_le B)
    omega
  · intro hk
    have hjlt : j < h.length := by omega
    have hlen_tb : (takeBudget ct B h.reverse 0).length = j := by
      rw [he, List.length_take, List.length_reverse]
      omega
    have hne : takeBudget ct B h.reverse 0 ≠ h.reverse := by
      intro hEq
      rw [hEq, List.length_reverse] at hlen_tb
      omega
    obtain ⟨m, rest2, hsplit, hlt⟩ := takeBudget_stop ct B h.reverse 0 hne
    have htake1 : h.reverse.take (j + 1) = takeBudget ct B h.reverse 0 ++ [m] := by
      conv => lhs; rw [hsplit]
      rw [List.take_append_eq_append_take,
        List.take_of_length_le (by omega), hlen_tb,
        show j + 1 - j = 1 from by omega]
      rfl
    have hdrop1 : h.drop (h.length - (j + 1)) = (h.reverse.take (j + 1)).reverse := by
      rw [List.reverse_take]
      simp
    rw [show h.length - j - 1 = h.length - (j + 1) from by omega, hdrop1, htake1]
    unfold sumTokens
    rw [List.map_reverse, List.sum_reverse, List.map_append, List.sum_append]
    unfold sumTokens at hlt
    simp only [List.map_cons, List.map_nil, List.sum_cons, List.sum_nil] at hlt ⊢
    omega

/-- Tokenizer oracle for the concrete history check. -/
def ctW : String → Nat := fun s => s.length

/-- A three-message history: a system message, a user message without a stored
count, and an assistant message whose stored count 0 forces a recount. -/
def histW : List Message :=
  [⟨0, "system", some 3, some "ctx"⟩,
   ⟨1, "user", none, some "hi"⟩,
   ⟨2, "assistant", some 0, some "yo"⟩]

/-- Witness for C10 at a concrete history and budget. -/
theorem C10_witness :
    ∃ k, k ≤ histW.length
      ∧ prepare_history ctW 9 histW = (histW.drop k).map toPair
      ∧ sumTokens ctW (histW.drop k) ≤ 9
      ∧ (0 < k → 9 < sumTokens ctW (histW.drop (k - 1))) :=
  C10_prepare_history ctW 9 histW

end AiContext

